import Mathlib

/-!
Shallow embedding of the bencher benchmark-result ingestion and
regression-detection pipeline, verified against its specification.

Sources embedded:
- services/cli/src/bencher/sub/project/run/mod.rs (Run::generate_report,
  Run::exec_inner, the iteration loop, backdate handling, report settings);
- lib/bencher_json/src/project/branch.rs (VersionNumber::increment/decrement);
- services/api/src/model/threshold/alert.rs (Side and its bool/JsonSide
  conversions).
Rust f64 metric values are modelled as rationals; only order comparisons and
field arithmetic on them occur in the embedded code paths. Rust DateTime is
modelled as an integer timestamp; chrono DateTime subtraction yields a signed
duration, matching integer subtraction.
-/

namespace Bencher

/-- Benchmark harness adapter selection, from CliRunAdapter in
services/cli/src/parser/project/run.rs (converted into the client Adapter in
Run::try_from). -/
inductive Adapter
  | magic
  | json
  | cSharp
  | cSharpDotNet
  | cpp
  | cppCatch2
  | cppGoogle
  | go
  | goBench
  | java
  | javaJmh
  | js
  | jsBenchmark
  | jsTime
  | python
  | pythonAsv
  | pythonPytest
  | ruby
  | rubyBenchmark
  | rust
  | rustBench
  | rustCriterion
  | rustIai
  | rustIaiCallgrind
  | shell
  | shellHyperfine
deriving DecidableEq, Repr

/-- Suggested central tendency, from CliRunAverage (Mean, Median). -/
inductive JsonAverage
  | mean
  | median
deriving DecidableEq, Repr

/-- Supported fold operations, from CliRunFold (Min, Max, Mean, Median). -/
inductive JsonFold
  | min
  | max
  | mean
  | median
deriving DecidableEq, Repr

/-- One iteration's runner output: the process success flag (is_success) and
the captured result text (result), as consumed by the loop in
Run::generate_report. -/
structure Output where
  success : Bool
  result : String
deriving DecidableEq, Repr

/-- The errors of run/error.rs that the embedded code paths can produce:
ExitStatus carries the failing iteration's output, Alerts carries the alert
count. -/
inductive RunError
  | exitStatus (output : Output)
  | alerts (count : Nat)
deriving DecidableEq, Repr

/-- Report settings echoed into the submitted report, from
JsonReportSettings { adapter, average, fold }. -/
structure JsonReportSettings where
  adapter : Option Adapter
  average : Option JsonAverage
  fold : Option JsonFold
deriving DecidableEq, Repr

/-- The assembled report payload, from JsonNewReport as constructed by
Run::generate_report. Branch, hash, start point, testbed and thresholds are
opaque identifiers copied from the configuration. -/
structure JsonNewReport where
  branch : String
  hash : Option String
  start_point : Option String
  testbed : String
  thresholds : List String
  start_time : Int
  end_time : Int
  results : List String
  settings : Option JsonReportSettings
deriving DecidableEq, Repr

/-- The run configuration fields of the Run struct in
services/cli/src/bencher/sub/project/run/mod.rs that the embedded code paths
read. -/
structure RunConfig where
  branch : String
  hash : Option String
  start_point : Option String
  testbed : String
  thresholds : List String
  adapter : Adapter
  average : Option JsonAverage
  iter : Nat
  fold : Option JsonFold
  backdate : Option Int
  allow_failure : Bool
  err : Bool
  dry_run : Bool
deriving DecidableEq, Repr

/-- The iteration loop of Run::generate_report: a successful output's result
is pushed; a failing output is skipped when allow_failure is set and
otherwise aborts the whole collection with RunError.exitStatus carrying the
failing output. -/
def collectResults (allow_failure : Bool) : List Output → Except RunError (List String)
  | [] => .ok []
  | output :: rest =>
    if output.success then
      (collectResults allow_failure rest).map (output.result :: ·)
    else if allow_failure then
      collectResults allow_failure rest
    else
      .error (.exitStatus output)

/-- The backdate adjustment of Run::generate_report: if a backdate is set it
becomes the start time and the end time is the backdate plus the measured
elapsed duration; otherwise the wall-clock readings are used as is. -/
def backdateTimes (backdate : Option Int) (start_time end_time : Int) : Int × Int :=
  match backdate with
  | some b => (b, b + (end_time - start_time))
  | none => (start_time, end_time)

/-- Run::generate_report: collects the iteration outputs (start_time is read
from the clock before the loop and end_time after it; here the two clock
readings are explicit arguments), applies the backdate adjustment, and
assembles the JsonNewReport with the settings echoing the configuration. -/
def generate_report (cfg : RunConfig) (outputs : List Output)
    (start_time end_time : Int) : Except RunError JsonNewReport :=
  (collectResults cfg.allow_failure outputs).map fun results =>
    let times := backdateTimes cfg.backdate start_time end_time
    { branch := cfg.branch
      hash := cfg.hash
      start_point := cfg.start_point
      testbed := cfg.testbed
      thresholds := cfg.thresholds
      start_time := times.1
      end_time := times.2
      results := results
      settings := some { adapter := some cfg.adapter
                         average := cfg.average
                         fold := cfg.fold } }

/-- Observable milestones of Run::exec_inner, in program order: the report is
generated, printed, sent to the API, and its results displayed. -/
inductive RunEvent
  | reportGenerated
  | reportPrinted
  | reportSent
  | resultsDisplayed
deriving DecidableEq, Repr

/-- Run::exec_inner after the version and CI safety checks: generate the
report (aborting on its error), print it, stop early on a dry run, otherwise
send it, display the returned results, and only then fail with
RunError.alerts when the err flag is set and the returned report carried at
least one alert. alerts_count is the alert count of the report returned by
the API. -/
def exec_inner (cfg : RunConfig) (outputs : List Output)
    (start_time end_time : Int) (alerts_count : Nat) :
    List RunEvent × Except RunError Unit :=
  match generate_report cfg outputs start_time end_time with
  | .error e => ([], .error e)
  | .ok _ =>
    if cfg.dry_run then
      ([.reportGenerated, .reportPrinted], .ok ())
    else
      let events := [RunEvent.reportGenerated, .reportPrinted, .reportSent,
        .resultsDisplayed]
      if cfg.err && decide (0 < alerts_count) then
        (events, .error (.alerts alerts_count))
      else
        (events, .ok ())

/-- The largest u32 value, the overflow point of
VersionNumber::increment in lib/bencher_json/src/project/branch.rs. -/
def U32_MAX : Nat := 4294967295

/-- Rust u32::checked_add: some of the sum when it fits in a u32, none on
overflow. -/
def u32_checked_add (a b : Nat) : Option Nat :=
  if a + b ≤ U32_MAX then some (a + b) else none

/-- Rust u32::checked_sub: some of the difference when it does not
underflow, none otherwise. -/
def u32_checked_sub (a b : Nat) : Option Nat :=
  if b ≤ a then some (a - b) else none

/-- VersionNumber::increment: checked_add(1).unwrap_or_default(), where the
default VersionNumber is 0. -/
def VersionNumber.increment (n : Nat) : Nat :=
  (u32_checked_add n 1).getD 0

/-- VersionNumber.decrement: checked_sub(1).unwrap_or_default(), where the
default VersionNumber is 0. -/
def VersionNumber.decrement (n : Nat) : Nat :=
  (u32_checked_sub n 1).getD 0

/-- Alert side, from the Side enum in
services/api/src/model/threshold/alert.rs (Left = 0, Right = 1). -/
inductive Side
  | left
  | right
deriving DecidableEq, Repr

/-- The JSON-facing side enum JsonSide of bencher_json alert. -/
inductive JsonSide
  | left
  | right
deriving DecidableEq, Repr

/-- From<bool> for Side: false is Left, true is Right. -/
def Side.from_bool : Bool → Side
  | false => .left
  | true => .right

/-- Into<bool> for Side: Left is false, Right is true (the database
encoding of the side column). -/
def Side.into_bool : Side → Bool
  | .left => false
  | .right => true

/-- Into<JsonSide> for Side: Left to JsonSide::Left, Right to
JsonSide::Right. -/
def Side.into_json : Side → JsonSide
  | .left => .left
  | .right => .right

/-- An alert, per the spec data model: the violated side, the violated
boundary limit, and the outlier value. -/
structure Alert where
  side : Side
  boundary_limit : ℚ
  outlier_value : ℚ
deriving DecidableEq, Repr

/-- A computed boundary, per the spec data model: a baseline and optional
lower and upper acceptable limits. -/
structure Boundary where
  baseline : ℚ
  lower_limit : Option ℚ
  upper_limit : Option ℚ
deriving DecidableEq, Repr

/-- Modelled from the spec: the lower-limit half of the Alert Evaluator of
spec section 4.6 (the evaluate function itself is not among the provided
source files). If a lower limit is present and the value is below it, emit
a Left alert carrying that limit and the value; otherwise no alert. -/
def evaluateLower (value : ℚ) : Option ℚ → Option Alert
  | some l =>
    if value < l then
      some { side := .left, boundary_limit := l, outlier_value := value }
    else
      none
  | none => none

/-- Modelled from the spec: the Alert Evaluator of spec section 4.6 (the
evaluate function itself is not among the provided source files). The upper
limit is checked first: if present and the value is above it, emit a Right
alert carrying that limit and the value; otherwise fall through to the
lower-limit check. -/
def evaluate (value : ℚ) (b : Boundary) : Option Alert :=
  match b.upper_limit with
  | some u =>
    if u < value then
      some { side := .right, boundary_limit := u, outlier_value := value }
    else
      evaluateLower value b.lower_limit
  | none => evaluateLower value b.lower_limit

/-- The statistical test kinds of the Statistic configuration, per the spec
data model. -/
inductive StatisticKind
  | zscore
  | ttest
  | percentage
  | interquartileRange
  | static
deriving DecidableEq, Repr

/-- The Statistic configuration, per the spec data model: test kind, minimum
and optional maximum sample sizes, an optional window duration, and optional
lower and upper boundary parameters. -/
structure Statistic where
  test : StatisticKind
  min_sample_size : Nat
  max_sample_size : Option Nat
  window : Option Nat
  lower_boundary : Option ℚ
  upper_boundary : Option ℚ
deriving DecidableEq, Repr

/-- Arithmetic mean of a list of rationals (0 for the empty list). -/
def listMean (l : List ℚ) : ℚ :=
  l.sum / l.length

/-- Insert a value into an already sorted list, keeping it sorted. -/
def insertSorted (x : ℚ) : List ℚ → List ℚ
  | [] => [x]
  | y :: ys => if x ≤ y then x :: y :: ys else y :: insertSorted x ys

/-- Insertion sort on rationals, ascending. -/
def sortQ : List ℚ → List ℚ
  | [] => []
  | x :: xs => insertSorted x (sortQ xs)

/-- Median per the spec: sort the values and pick the middle element; for an
even count, the mean of the two middle values (0 for the empty list). -/
def listMedian (l : List ℚ) : ℚ :=
  let s := sortQ l
  let n := s.length
  if n % 2 = 1 then s.getD (n / 2) 0
  else (s.getD (n / 2 - 1) 0 + s.getD (n / 2) 0) / 2

/-- Sample variance of a list of rationals: sum of squared deviations from
the mean over (length - 1); 0 for lists with fewer than two elements. -/
def sampleVariance (l : List ℚ) : ℚ :=
  if l.length ≤ 1 then 0
  else
    let m := listMean l
    (l.map (fun x => (x - m) * (x - m))).sum / (l.length - 1 : Nat)

/-- Interquartile range: the median of the upper half of the sorted values
minus the median of the lower half (for an odd count the middle element is
excluded from both halves). -/
def listIqr (l : List ℚ) : ℚ :=
  let s := sortQ l
  let n := s.length
  listMedian (s.drop ((n + 1) / 2)) - listMedian (s.take (n / 2))

/-- Modelled from the spec: the per-test-kind limit computation of the
Boundary Calculator of spec section 4.5 (the compute function itself is not
among the provided source files). Rust f64 is modelled as the rationals, so
the three transcendental ingredients the spec names — the inverse normal CDF
for Zscore, the Student's-t critical value (parameterized by the population
size minus one) for Ttest, and the square root producing the standard
deviation from the variance — are taken as function arguments. A side's
limit is computed only when its boundary parameter is configured. The spec
leaves the Static baseline unspecified (the population is ignored beyond
sample-size gating); 0 is used. -/
def computeLimits (icdf : ℚ → ℚ) (tcrit : ℚ → Nat → ℚ) (sqrtQ : ℚ → ℚ)
    (pop : List ℚ) (s : Statistic) : Boundary :=
  match s.test with
  | .static =>
    { baseline := 0
      lower_limit := s.lower_boundary
      upper_limit := s.upper_boundary }
  | .percentage =>
    let m := listMean pop
    { baseline := m
      lower_limit := s.lower_boundary.map (fun f => m - f * m)
      upper_limit := s.upper_boundary.map (fun f => m + f * m) }
  | .zscore =>
    let m := listMean pop
    let sd := sqrtQ (sampleVariance pop)
    { baseline := m
      lower_limit := s.lower_boundary.map (fun p => m - icdf p * sd)
      upper_limit := s.upper_boundary.map (fun p => m + icdf p * sd) }
  | .ttest =>
    let m := listMean pop
    let sd := sqrtQ (sampleVariance pop)
    { baseline := m
      lower_limit := s.lower_boundary.map (fun p => m - tcrit p (pop.length - 1) * sd)
      upper_limit := s.upper_boundary.map (fun p => m + tcrit p (pop.length - 1) * sd) }
  | .interquartileRange =>
    let med := listMedian pop
    let iqrv := listIqr pop
    { baseline := med
      lower_limit := s.lower_boundary.map (fun k => med - k * iqrv)
      upper_limit := s.upper_boundary.map (fun k => med + k * iqrv) }

/-- Modelled from the spec: the Boundary Calculator of spec section 4.5 (the
compute function itself is not among the provided source files). Returns
none when the population is smaller than min_sample_size; otherwise filters
to the entries within the window duration of the evaluation time (the
population carries a timestamp per entry for this, chronologically ordered),
then truncates to the at most max_sample_size most-recent entries, and
computes the per-test-kind limits. -/
def compute (icdf : ℚ → ℚ) (tcrit : ℚ → Nat → ℚ) (sqrtQ : ℚ → ℚ)
    (now : Int) (population : List (Int × ℚ)) (s : Statistic) :
    Option Boundary :=
  if population.length < s.min_sample_size then none
  else
    let windowed := match s.window with
      | some w => population.filter (fun (e : Int × ℚ) => decide (now - (w : Int) ≤ e.1))
      | none => population
    let pop := (match s.max_sample_size with
      | some m => windowed.drop (windowed.length - m)
      | none => windowed).map Prod.snd
    some (computeLimits icdf tcrit sqrtQ pop s)

/-- A key of the fold: a (benchmark name, measure name) pair. -/
abbrev BenchKey := String × String

/-- A parsed iteration result, per the spec data model: a mapping from
benchmark and measure to the metric's central value, as an association list
in benchmark discovery order. The spec's fold contract combines the central
values per (benchmark, measure) pair; the optional metric bounds play no
role in it. -/
abbrev BenchmarkResult := List (BenchKey × ℚ)

/-- First-match association lookup of a key's value in one iteration
result. -/
def lookupVal (k : BenchKey) : BenchmarkResult → Option ℚ
  | [] => none
  | (k', v) :: rest => if k' = k then some v else lookupVal k rest

/-- Deduplicate keys keeping the first occurrence of each, preserving
discovery order. -/
def firstDedup : List BenchKey → List BenchKey
  | [] => []
  | k :: rest => k :: (firstDedup rest).filter (fun x => decide (x ≠ k))

/-- Modelled from the spec: one fold operation applied to the values a
(benchmark, measure) pair took across iterations (the Fold Reducer of spec
section 4.3 is not among the provided source files): minimum, maximum,
arithmetic mean, or median (0 for an empty value list, which the fold never
produces). -/
def foldValues (op : JsonFold) (values : List ℚ) : ℚ :=
  match op with
  | .min => match values with
    | [] => 0
    | v :: rest => rest.foldl min v
  | .max => match values with
    | [] => 0
    | v :: rest => rest.foldl max v
  | .mean => listMean values
  | .median => listMedian values

/-- Modelled from the spec: the Fold Reducer of spec section 4.3 (the fold
function itself is not among the provided source files). With no fold
operation only the last iteration's values are kept; with an operation,
every (benchmark, measure) pair occurring in any iteration is folded
independently over the values it took across the iterations, in discovery
order. -/
def fold (results : List BenchmarkResult) (op : Option JsonFold) :
    BenchmarkResult :=
  match op with
  | none => (results.getLast?).getD []
  | some o =>
    (firstDedup (results.flatMap (List.map Prod.fst))).map
      (fun k => (k, foldValues o (results.filterMap (lookupVal k))))

/-- Claim C9: VersionNumber.increment returns n + 1 for every n below
u32::MAX but wraps to the default 0 at n = u32::MAX instead of saturating;
VersionNumber.decrement returns n - 1 for every positive n and 0 at 0;
hence decrement (increment n) = n holds for n below u32::MAX and fails at
u32::MAX. -/
theorem C9_version_number_increment_decrement :
    (∀ n, n < U32_MAX → VersionNumber.increment n = n + 1) ∧
    VersionNumber.increment U32_MAX = 0 ∧
    (∀ n, 0 < n → VersionNumber.decrement n = n - 1) ∧
    VersionNumber.decrement 0 = 0 ∧
    (∀ n, n < U32_MAX →
      VersionNumber.decrement (VersionNumber.increment n) = n) ∧
    VersionNumber.decrement (VersionNumber.increment U32_MAX) ≠ U32_MAX := by
  refine ⟨?_, ?_, ?_, ?_, ?_, ?_⟩
  · intro n h
    unfold VersionNumber.increment u32_checked_add
    rw [if_pos (by omega)]
    rfl
  · unfold VersionNumber.increment u32_checked_add U32_MAX
    norm_num
  · intro n h
    unfold VersionNumber.decrement u32_checked_sub
    rw [if_pos (by omega)]
    rfl
  · rfl
  · intro n h
    unfold VersionNumber.increment VersionNumber.decrement
    unfold u32_checked_add u32_checked_sub
    rw [if_pos (show n + 1 ≤ U32_MAX by omega)]
    simp
  · unfold VersionNumber.increment VersionNumber.decrement
    unfold u32_checked_add u32_checked_sub U32_MAX
    norm_num

/-- Witness for claim C9 at the concrete version numbers 41 and 42. -/
theorem C9_witness :
    VersionNumber.increment 41 = 42 ∧ VersionNumber.decrement 42 = 41 ∧
    VersionNumber.decrement (VersionNumber.increment 41) = 41 :=
  ⟨C9_version_number_increment_decrement.1 41 (by norm_num [U32_MAX]),
   C9_version_number_increment_decrement.2.2.1 42 (by norm_num),
   C9_version_number_increment_decrement.2.2.2.2.1 41 (by norm_num [U32_MAX])⟩

/-- Claim C10: the alert side's boolean database encoding round-trips in
both directions, with Left encoded as false and Right as true, and Left and
Right mapped to the matching JsonSide variants. -/
theorem C10_side_encoding_roundtrip :
    (∀ b : Bool, Side.into_bool (Side.from_bool b) = b) ∧
    (∀ s : Side, Side.from_bool (Side.into_bool s) = s) ∧
    Side.from_bool false = Side.left ∧
    Side.from_bool true = Side.right ∧
    Side.into_bool Side.left = false ∧
    Side.into_bool Side.right = true ∧
    Side.into_json Side.left = JsonSide.left ∧
    Side.into_json Side.right = JsonSide.right := by
  refine ⟨?_, ?_, rfl, rfl, rfl, rfl, rfl, rfl⟩
  · intro b
    cases b <;> rfl
  · intro s
    cases s <;> rfl

/-- Claim C5: the boundary computation returns none, skipping evaluation,
whenever the historical population is strictly smaller than the statistic's
min_sample_size, for every test kind and every choice of the transcendental
ingredients. -/
theorem C5_population_gating (icdf : ℚ → ℚ) (tcrit : ℚ → Nat → ℚ)
    (sqrtQ : ℚ → ℚ) (now : Int) (population : List (Int × ℚ))
    (s : Statistic) (h : population.length < s.min_sample_size) :
    compute icdf tcrit sqrtQ now population s = none := by
  unfold compute
  rw [if_pos h]

/-- Witness for claim C5: a single-entry population against a minimum
sample size of two yields no boundary. -/
theorem C5_witness :
    compute id (fun _ _ => 1) id 0 [(0, 1)]
      { test := .zscore, min_sample_size := 2, max_sample_size := none,
        window := none, lower_boundary := none, upper_boundary := none } =
      none :=
  C5_population_gating id (fun _ _ => 1) id 0 [(0, 1)] _ (by norm_num)

/-- Counterexample to claim C4 as stated: for the boundary with
lower_limit 20 and upper_limit 10 (attainable with a Static statistic whose
configured absolute limits cross) and value 15, evaluation emits a Right
alert even though the value is below the lower limit, so the claimed
equivalence that the side is Left iff the value is below the lower limit
fails. -/
theorem C4_counterexample :
    compute id (fun _ _ => 1) id 0 [(0, 15)]
      ⟨.static, 1, none, none, some 20, some 10⟩ =
      some ⟨0, some 20, some 10⟩ ∧
    evaluate 15 ⟨0, some 20, some 10⟩ = some ⟨.right, 10, 15⟩ ∧
    (15 : ℚ) < 20 ∧
    Side.right ≠ Side.left := by
  refine ⟨by rfl, ?_, by norm_num, by simp⟩
  unfold evaluate
  simp only []
  rw [if_pos (by norm_num)]

/-- Claim C4, amended: for every boundary whose limits do not cross (the
lower limit is at most the upper limit whenever both are present, as for
limits straddling a baseline) and every value, evaluation checks the upper
limit first and emits a Right alert when it is exceeded, otherwise a Left
alert when a present lower limit is undercut, otherwise nothing; the
emitted alert carries the violated limit and the value, its side is Left
iff the value is below the lower limit and Right iff it is above the upper
limit, and at most one alert is emitted per evaluation. -/
theorem C4_alert_evaluation (b : Boundary) (v : ℚ)
    (hord : ∀ l u, b.lower_limit = some l → b.upper_limit = some u → l ≤ u) :
    (∀ u, b.upper_limit = some u → u < v →
      evaluate v b =
        some { side := .right, boundary_limit := u, outlier_value := v }) ∧
    (∀ l, b.lower_limit = some l → v < l →
      (∀ u, b.upper_limit = some u → ¬u < v) →
      evaluate v b =
        some { side := .left, boundary_limit := l, outlier_value := v }) ∧
    ((∀ u, b.upper_limit = some u → ¬u < v) →
      (∀ l, b.lower_limit = some l → ¬v < l) →
      evaluate v b = none) ∧
    (∀ a, evaluate v b = some a →
      a.outlier_value = v ∧
      (a.side = .left ↔ ∃ l, b.lower_limit = some l ∧ v < l) ∧
      (a.side = .right ↔ ∃ u, b.upper_limit = some u ∧ u < v) ∧
      (a.side = .left → b.lower_limit = some a.boundary_limit) ∧
      (a.side = .right → b.upper_limit = some a.boundary_limit)) ∧
    (∀ a a', evaluate v b = some a → evaluate v b = some a' → a = a') := by
  obtain ⟨base, lo, hi⟩ := b
  refine ⟨?_, ?_, ?_, ?_, ?_⟩
  · intro u hu hlt
    cases hi with
    | none => simp at hu
    | some u' =>
      cases hu
      unfold evaluate
      simp only []
      rw [if_pos hlt]
  · intro l hl hlt hup
    cases lo with
    | none => simp at hl
    | some l' =>
      cases hl
      cases hi with
      | none =>
        unfold evaluate evaluateLower
        simp only []
        rw [if_pos hlt]
      | some u =>
        unfold evaluate evaluateLower
        simp only []
        rw [if_neg (hup u rfl), if_pos hlt]
  · intro hup hlo
    unfold evaluate evaluateLower
    cases hi with
    | none =>
      cases lo with
      | none => simp
      | some l => simp only []; rw [if_neg (hlo l rfl)]
    | some u =>
      simp only []
      rw [if_neg (hup u rfl)]
      cases lo with
      | none => simp
      | some l => simp only []; rw [if_neg (hlo l rfl)]
  · intro a ha
    unfold evaluate evaluateLower at ha
    cases hi with
    | none =>
      cases lo with
      | none => simp at ha
      | some l =>
        simp only [] at ha
        by_cases hvl : v < l
        · rw [if_pos hvl] at ha
          cases ha
          refine ⟨rfl, ?_, ?_, ?_, ?_⟩ <;> simp [hvl]
        · rw [if_neg hvl] at ha
          exact absurd ha (by simp)
    | some u =>
      simp only [] at ha
      by_cases huv : u < v
      · rw [if_pos huv] at ha
        cases ha
        refine ⟨rfl, ?_, ?_, ?_, ?_⟩
        · constructor
          · intro hcon; exact absurd hcon (by simp)
          · rintro ⟨l, hl, hvl⟩
            cases hl
            exact absurd (lt_trans hvl (lt_of_le_of_lt (hord l u rfl rfl) huv))
              (lt_irrefl v)
        · simp [huv]
        · intro hcon; exact absurd hcon (by simp)
        · simp
      · rw [if_neg huv] at ha
        cases lo with
        | none => simp at ha
        | some l =>
          simp only [] at ha
          by_cases hvl : v < l
          · rw [if_pos hvl] at ha
            cases ha
            refine ⟨rfl, ?_, ?_, ?_, ?_⟩
            · simp [hvl]
            · constructor
              · intro hcon; exact absurd hcon (by simp)
              · rintro ⟨u', hu', huv'⟩
                cases hu'
                exact absurd huv' huv
            · simp
            · intro hcon; exact absurd hcon (by simp)
          · rw [if_neg hvl] at ha
            exact absurd ha (by simp)
  · intro a a' ha ha'
    rw [ha] at ha'
    exact (Option.some.injEq _ _ ▸ ha').symm ▸ rfl

/-- Witness for claim C4 at the boundary with lower limit 10 and upper
limit 20 and the outlier value 25: a Right alert carrying the upper limit
and the value. -/
theorem C4_witness :
    evaluate 25 ⟨15, some 10, some 20⟩ = some ⟨.right, 20, 25⟩ :=
  (C4_alert_evaluation ⟨15, some 10, some 20⟩ 25
      (fun l u hl hu => by
        cases hl
        cases hu
        norm_num)).1
    20 rfl (by norm_num)

/-- Helper: a successful generate_report is exactly a successful result
collection together with the assembled report whose times come from the
backdate adjustment and whose settings echo the configuration. -/
theorem generate_report_ok_iff (cfg : RunConfig) (outputs : List Output)
    (t1 t2 : Int) (r : JsonNewReport) :
    generate_report cfg outputs t1 t2 = .ok r ↔
    ∃ results, collectResults cfg.allow_failure outputs = .ok results ∧
      r = ⟨cfg.branch, cfg.hash, cfg.start_point, cfg.testbed,
        cfg.thresholds, (backdateTimes cfg.backdate t1 t2).1,
        (backdateTimes cfg.backdate t1 t2).2, results,
        some ⟨some cfg.adapter, cfg.average, cfg.fold⟩⟩ := by
  unfold generate_report
  cases hc : collectResults cfg.allow_failure outputs with
  | error e => simp [Except.map]
  | ok results =>
    simp only [Except.map, Except.ok.injEq]
    constructor
    · intro h
      exact ⟨results, rfl, h.symm⟩
    · rintro ⟨results', hr', heq⟩
      cases hr'
      exact heq.symm

/-- Claim C1: with a backdate T0 configured, every successfully assembled
report has start_time T0 and end_time T0 plus the measured elapsed
duration, independent of the absolute clock readings; with no backdate, the
report carries the clock readings taken before the first and after the last
iteration. -/
theorem C1_backdate_invariant (cfg : RunConfig) (outputs : List Output)
    (t1 t2 : Int) (r : JsonNewReport)
    (hok : generate_report cfg outputs t1 t2 = .ok r) :
    (∀ t0, cfg.backdate = some t0 →
      r.start_time = t0 ∧ r.end_time = t0 + (t2 - t1)) ∧
    (cfg.backdate = none → r.start_time = t1 ∧ r.end_time = t2) := by
  obtain ⟨results, -, hr⟩ := (generate_report_ok_iff cfg outputs t1 t2 r).mp hok
  subst hr
  constructor
  · intro t0 hb
    simp [backdateTimes, hb]
  · intro hb
    simp [backdateTimes, hb]

/-- Witness claim C1 at backdate 100 with clock readings 5 and 7: the
report runs from 100 to 102. -/
theorem C1_witness :
    (⟨"b", none, none, "t", [], 100, 102, [], some ⟨some .magic, none,
      none⟩⟩ : JsonNewReport).start_time = 100 ∧
    (⟨"b", none, none, "t", [], 100, 102, [], some ⟨some .magic, none,
      none⟩⟩ : JsonNewReport).end_time = 100 + (7 - 5) :=
  (C1_backdate_invariant
      ⟨"b", none, none, "t", [], .magic, none, 1, none, some 100, false,
        false, false⟩
      [] 5 7 _ (by rfl)).1 100 rfl

/-- Claim C7: every successfully assembled report satisfies start_time at
most end_time, both without a backdate (given that the second clock reading
is not before the first) and with one. -/
theorem C7_start_le_end (cfg : RunConfig) (outputs : List Output)
    (t1 t2 : Int) (r : JsonNewReport) (hle : t1 ≤ t2)
    (hok : generate_report cfg outputs t1 t2 = .ok r) :
    r.start_time ≤ r.end_time := by
  obtain ⟨results, -, hr⟩ := (generate_report_ok_iff cfg outputs t1 t2 r).mp hok
  subst hr
  cases hb : cfg.backdate with
  | none => simpa [backdateTimes, hb] using hle
  | some t0 =>
    simp only [backdateTimes, hb]
    omega

/-- Witness claim C7 with a backdate of 100 and clock readings 5 and 7. -/
theorem C7_witness :
    (⟨"b", none, none, "t", [], 100, 102, [], some ⟨some .magic, none,
      none⟩⟩ : JsonNewReport).start_time ≤
    (⟨"b", none, none, "t", [], 100, 102, [], some ⟨some .magic, none,
      none⟩⟩ : JsonNewReport).end_time :=
  C7_start_le_end
    ⟨"b", none, none, "t", [], .magic, none, 1, none, some 100, false,
      false, false⟩
    [] 5 7 _ (by norm_num) (by rfl)

/-- Claim C8: every successfully assembled report's settings echo exactly
the configuration used for the run — the selected adapter, the configured
average option and the configured fold option, the latter two absent
exactly when not configured — and are unchanged by the iteration outputs
and clock readings. -/
theorem C8_settings_echo (cfg : RunConfig) (outputs₁ outputs₂ : List Output)
    (t1 t2 t1' t2' : Int) (r₁ r₂ : JsonNewReport)
    (h1 : generate_report cfg outputs₁ t1 t2 = .ok r₁)
    (h2 : generate_report cfg outputs₂ t1' t2' = .ok r₂) :
    r₁.settings = some ⟨some cfg.adapter, cfg.average, cfg.fold⟩ ∧
    r₁.settings = r₂.settings ∧
    (∀ s, r₁.settings = some s →
      (s.average = none ↔ cfg.average = none) ∧
      (s.fold = none ↔ cfg.fold = none)) := by
  obtain ⟨res₁, -, hr₁⟩ :=
    (generate_report_ok_iff cfg outputs₁ t1 t2 r₁).mp h1
  obtain ⟨res₂, -, hr₂⟩ :=
    (generate_report_ok_iff cfg outputs₂ t1' t2' r₂).mp h2
  subst hr₁
  subst hr₂
  refine ⟨rfl, rfl, ?_⟩
  intro s hs
  cases hs
  exact ⟨Iff.rfl, Iff.rfl⟩

/-- Witness claim C8 for a configuration with a mean average, no fold, the
JSON adapter, and two different output lists and clock readings. -/
theorem C8_witness :
    (⟨"b", none, none, "t", [], 0, 9, ["x"], some ⟨some .json, some .mean,
      none⟩⟩ : JsonNewReport).settings =
      some ⟨some Adapter.json, some JsonAverage.mean, none⟩ :=
  (C8_settings_echo
      ⟨"b", none, none, "t", [], .json, some .mean, 1, none, none, false,
        false, false⟩
      [⟨true, "x"⟩] [] 0 9 3 4 _
      ⟨"b", none, none, "t", [], 3, 4, [], some ⟨some .json, some .mean,
        none⟩⟩
      (by rfl) (by rfl)).1

/-- Helper: with allow_failure set, the collection keeps exactly the
successful outputs' results, in order. -/
theorem collectResults_allow (outputs : List Output) :
    collectResults true outputs =
      .ok ((outputs.filter (fun o => o.success)).map (fun o => o.result)) := by
  induction outputs with
  | nil => rfl
  | cons o rest ih =>
    unfold collectResults
    cases hs : o.success with
    | true => simp [hs, ih, Except.map, List.filter]
    | false => simp [hs, ih, List.filter]

/-- Helper: without allow_failure, if every output succeeded, the
collection keeps every result in order. -/
theorem collectResults_all_success (outputs : List Output)
    (h : ∀ o ∈ outputs, o.success = true) :
    collectResults false outputs = .ok (outputs.map (fun o => o.result)) := by
  induction outputs with
  | nil => rfl
  | cons o rest ih =>
    unfold collectResults
    rw [if_pos (h o (List.mem_cons_self o rest))]
    rw [ih (fun o' ho' => h o' (List.mem_cons_of_mem o ho'))]
    rfl

/-- Helper: without allow_failure, the collection aborts with the first
failing output, wrapped in an exit-status error. -/
theorem collectResults_first_failure (outputs : List Output) (o : Output)
    (h : outputs.find? (fun o => !o.success) = some o) :
    collectResults false outputs = .error (.exitStatus o) := by
  induction outputs with
  | nil => simp [List.find?] at h
  | cons x rest ih =>
    unfold collectResults
    cases hs : x.success with
    | true =>
      rw [List.find?] at h
      simp [hs] at h
      rw [ih h]
      rfl
    | false =>
      rw [List.find?] at h
      simp [hs] at h
      simp [hs, h]

/-- Claim C2: each iteration's output result is appended exactly when the
run succeeded; with allow_failure set a failing iteration is skipped and
collection continues; without it the collection aborts at the first failing
iteration with an exit-status error carrying the failing output, and
generate_report then produces no report but that error. -/
theorem C2_iteration_collection (outputs : List Output) :
    collectResults true outputs =
      .ok ((outputs.filter (fun o => o.success)).map (fun o => o.result)) ∧
    ((∀ o ∈ outputs, o.success = true) →
      collectResults false outputs =
        .ok (outputs.map (fun o => o.result))) ∧
    (∀ o, outputs.find? (fun o => !o.success) = some o →
      collectResults false outputs = .error (.exitStatus o)) ∧
    (∀ cfg t1 t2 o, cfg.allow_failure = false →
      outputs.find? (fun o => !o.success) = some o →
      generate_report cfg outputs t1 t2 = .error (.exitStatus o)) := by
  refine ⟨collectResults_allow outputs, collectResults_all_success outputs,
    fun o h => collectResults_first_failure outputs o h, ?_⟩
  intro cfg t1 t2 o haf h
  unfold generate_report
  rw [haf, collectResults_first_failure outputs o h]
  rfl

/-- Witness claim C2 on the outputs (success, "a"), (failure, "b"),
(success, "c"): with allow_failure the failure is skipped, without it the
collection aborts with the failing output. -/
theorem C2_witness :
    collectResults true [⟨true, "a"⟩, ⟨false, "b"⟩, ⟨true, "c"⟩] =
      .ok ["a", "c"] ∧
    collectResults false [⟨true, "a"⟩, ⟨false, "b"⟩, ⟨true, "c"⟩] =
      .error (.exitStatus ⟨false, "b"⟩) := by
  constructor
  · exact (C2_iteration_collection
      [⟨true, "a"⟩, ⟨false, "b"⟩, ⟨true, "c"⟩]).1
  · exact (C2_iteration_collection
      [⟨true, "a"⟩, ⟨false, "b"⟩, ⟨true, "c"⟩]).2.2.1 ⟨false, "b"⟩ (by rfl)

/-- Claim C3: given a report was generated and this is not a dry run, the
run errors with the alerts error exactly when the error-on-alert flag is
set and the submitted report came back with at least one alert; the error
carries the alert count and is raised only after the report was generated,
printed, sent and its results displayed; with the flag unset the presence
of alerts leaves the run successful. -/
theorem C3_error_on_alert (cfg : RunConfig) (outputs : List Output)
    (t1 t2 : Int) (n : Nat)
    (hgen : ∃ r, generate_report cfg outputs t1 t2 = .ok r)
    (hdry : cfg.dry_run = false) :
    ((exec_inner cfg outputs t1 t2 n).2 = .error (.alerts n) ↔
      cfg.err = true ∧ 0 < n) ∧
    (∀ m, (exec_inner cfg outputs t1 t2 n).2 = .error (.alerts m) →
      m = n) ∧
    ((exec_inner cfg outputs t1 t2 n).2 = .error (.alerts n) →
      (exec_inner cfg outputs t1 t2 n).1 =
        [.reportGenerated, .reportPrinted, .reportSent,
          .resultsDisplayed]) ∧
    (cfg.err = false → (exec_inner cfg outputs t1 t2 n).2 = .ok ()) := by
  obtain ⟨r, hr⟩ := hgen
  unfold exec_inner
  rw [hr, hdry]
  simp only [Bool.false_eq_true, if_false]
  cases he : cfg.err with
  | false => simp
  | true =>
    by_cases hn : 0 < n
    · simp [hn]
    · simp [hn]

/-- Witness claim C3 for a non-dry run with the error-on-alert flag set and
two alerts. -/
theorem C3_witness :
    (exec_inner
      ⟨"b", none, none, "t", [], .magic, none, 1, none, none, false, true,
        false⟩
      [] 0 1 2).2 = .error (.alerts 2) :=
  (C3_error_on_alert
      ⟨"b", none, none, "t", [], .magic, none, 1, none, none, false, true,
        false⟩
      [] 0 1 2
      ⟨⟨"b", none, none, "t", [], 0, 1, [], some ⟨some .magic, none,
        none⟩⟩, by rfl⟩
      rfl).1.mpr ⟨rfl, by norm_num⟩

/-- Helper: a left min-fold is at most its initial value. -/
theorem foldl_min_le_init (l : List ℚ) (v : ℚ) : l.foldl min v ≤ v := by
  induction l generalizing v with
  | nil => simp
  | cons x xs ih =>
    simp only [List.foldl]
    exact le_trans (ih (min v x)) (min_le_left v x)

/-- Helper: a left min-fold is at most every list element. -/
theorem foldl_min_le_mem (l : List ℚ) (v w : ℚ) :
    w ∈ l → l.foldl min v ≤ w := by
  induction l generalizing v with
  | nil =>
    intro h
    simp at h
  | cons x xs ih =>
    intro hw
    simp only [List.foldl]
    rcases List.mem_cons.mp hw with h | h
    · subst h
      exact le_trans (foldl_min_le_init xs (min v w)) (min_le_right v w)
    · exact ih (min v x) h

/-- Helper: a left min-fold equals the initial value or some list
element. -/
theorem foldl_min_mem (l : List ℚ) (v : ℚ) :
    l.foldl min v = v ∨ l.foldl min v ∈ l := by
  induction l generalizing v with
  | nil =>
    left
    rfl
  | cons x xs ih =>
    simp only [List.foldl]
    rcases ih (min v x) with h | h
    · rcases min_choice v x with hm | hm
      · left
        rw [h, hm]
      · right
        rw [h, hm]
        exact List.mem_cons_self x xs
    · right
      exact List.mem_cons_of_mem x h

/-- Helper: a left max-fold is at least its initial value. -/
theorem foldl_max_init_le (l : List ℚ) (v : ℚ) : v ≤ l.foldl max v := by
  induction l generalizing v with
  | nil => simp
  | cons x xs ih =>
    simp only [List.foldl]
    exact le_trans (le_max_left v x) (ih (max v x))

/-- Helper: a left max-fold is at least every list element. -/
theorem foldl_max_mem_le (l : List ℚ) (v w : ℚ) :
    w ∈ l → w ≤ l.foldl max v := by
  induction l generalizing v with
  | nil =>
    intro h
    simp at h
  | cons x xs ih =>
    intro hw
    simp only [List.foldl]
    rcases List.mem_cons.mp hw with h | h
    · subst h
      exact le_trans (le_max_right v w) (foldl_max_init_le xs (max v w))
    · exact ih (max v x) h

/-- Helper: a left max-fold equals the initial value or some list
element. -/
theorem foldl_max_mem (l : List ℚ) (v : ℚ) :
    l.foldl max v = v ∨ l.foldl max v ∈ l := by
  induction l generalizing v with
  | nil =>
    left
    rfl
  | cons x xs ih =>
    simp only [List.foldl]
    rcases ih (max v x) with h | h
    · rcases max_choice v x with hm | hm
      · left
        rw [h, hm]
      · right
        rw [h, hm]
        exact List.mem_cons_self x xs
    · right
      exact List.mem_cons_of_mem x h

/-- Helper: the min fold of a non-empty value list is a member and a lower
bound. -/
theorem foldValues_min_spec (v : ℚ) (rest : List ℚ) :
    foldValues .min (v :: rest) ∈ v :: rest ∧
    ∀ w ∈ v :: rest, foldValues .min (v :: rest) ≤ w := by
  have hval : foldValues .min (v :: rest) = rest.foldl min v := rfl
  rw [hval]
  constructor
  · rcases foldl_min_mem rest v with h | h
    · rw [h]
      exact List.mem_cons_self v rest
    · exact List.mem_cons_of_mem v h
  · intro w hw
    rcases List.mem_cons.mp hw with h | h
    · subst h
      exact foldl_min_le_init rest w
    · exact foldl_min_le_mem rest v w h

/-- Helper: the max fold of a non-empty value list is a member and an upper
bound. -/
theorem foldValues_max_spec (v : ℚ) (rest : List ℚ) :
    foldValues .max (v :: rest) ∈ v :: rest ∧
    ∀ w ∈ v :: rest, w ≤ foldValues .max (v :: rest) := by
  have hval : foldValues .max (v :: rest) = rest.foldl max v := rfl
  rw [hval]
  constructor
  · rcases foldl_max_mem rest v with h | h
    · rw [h]
      exact List.mem_cons_self v rest
    · exact List.mem_cons_of_mem v h
  · intro w hw
    rcases List.mem_cons.mp hw with h | h
    · subst h
      exact foldl_max_init_le rest w
    · exact foldl_max_mem_le rest v w h

/-- Helper: every fold operation leaves a single value unchanged. -/
theorem foldValues_singleton (op : JsonFold) (v : ℚ) :
    foldValues op [v] = v := by
  cases op with
  | min => rfl
  | max => rfl
  | mean =>
    show listMean [v] = v
    rw [listMean]
    simp
  | median =>
    show listMedian [v] = v
    rw [listMedian]
    norm_num [sortQ, insertSorted]

/-- Helper: a successful lookup means the key occurs in the result. -/
theorem lookupVal_mem_keys (k : BenchKey) (r : BenchmarkResult) (w : ℚ) :
    lookupVal k r = some w → k ∈ r.map Prod.fst := by
  induction r with
  | nil =>
    intro h
    simp [lookupVal] at h
  | cons e rest ih =>
    intro h
    obtain ⟨k', v⟩ := e
    rw [lookupVal] at h
    by_cases hk : k' = k
    · subst hk
      exact List.mem_cons_self _ _
    · rw [if_neg hk] at h
      exact List.mem_cons_of_mem _ (ih h)

/-- Helper: a key occurring in a result has a successful lookup. -/
theorem lookupVal_isSome_of_mem (k : BenchKey) (r : BenchmarkResult) :
    k ∈ r.map Prod.fst → ∃ w, lookupVal k r = some w := by
  induction r with
  | nil =>
    intro h
    simp at h
  | cons e rest ih =>
    intro h
    obtain ⟨k', v⟩ := e
    rw [lookupVal]
    by_cases hk : k' = k
    · exact ⟨v, by rw [if_pos hk]⟩
    · rw [if_neg hk]
      apply ih
      simp only [List.map] at h
      rcases List.mem_cons.mp h with h1 | h1
      · exact absurd h1.symm hk
      · exact h1

/-- Helper: first-occurrence deduplication only keeps original keys. -/
theorem firstDedup_subset (l : List BenchKey) :
    ∀ k ∈ firstDedup l, k ∈ l := by
  induction l with
  | nil =>
    intro k h
    simp [firstDedup] at h
  | cons x xs ih =>
    intro k h
    rw [firstDedup] at h
    rcases List.mem_cons.mp h with h1 | h1
    · subst h1
      exact List.mem_cons_self _ _
    · exact List.mem_cons_of_mem x (ih k (List.mem_of_mem_filter h1))

/-- Helper: deduplication leaves a duplicate-free key list unchanged. -/
theorem firstDedup_eq_self (l : List BenchKey) (h : l.Nodup) :
    firstDedup l = l := by
  induction l with
  | nil => rfl
  | cons x xs ih =>
    obtain ⟨hx, hxs⟩ := List.nodup_cons.mp h
    rw [firstDedup, ih hxs]
    congr 1
    apply List.filter_eq_self.mpr
    intro a ha
    simp only [decide_eq_true_eq]
    intro hax
    exact hx (hax ▸ ha)

/-- Helper: rebuilding a duplicate-free association list from its keys with
a function agreeing with lookup reproduces it. -/
theorem assoc_rebuild (r : BenchmarkResult) (f : BenchKey → ℚ)
    (hf : ∀ k v, lookupVal k r = some v → f k = v)
    (hnd : (r.map Prod.fst).Nodup) :
    (r.map Prod.fst).map (fun k => (k, f k)) = r := by
  induction r with
  | nil => rfl
  | cons e rest ih =>
    obtain ⟨k₀, v₀⟩ := e
    simp only [List.map]
    simp only [List.map] at hnd
    have hnd' := List.nodup_cons.mp hnd
    have h0 : f k₀ = v₀ := hf k₀ v₀ (by rw [lookupVal, if_pos rfl])
    rw [h0]
    congr 1
    apply ih
    · intro k v hkv
      apply hf
      rw [lookupVal]
      have hk : k₀ ≠ k := by
        intro he
        subst he
        exact hnd'.1 (lookupVal_mem_keys k₀ rest v hkv)
      rw [if_neg hk]
      exact hkv
    · exact hnd'.2

/-- Helper: a fold entry's value is the fold operation applied to the
non-empty list of values its key took across the iterations. -/
theorem fold_some_mem (results : List BenchmarkResult) (o : JsonFold)
    (k : BenchKey) (v : ℚ) (h : (k, v) ∈ fold results (some o)) :
    v = foldValues o (results.filterMap (lookupVal k)) ∧
    results.filterMap (lookupVal k) ≠ [] := by
  rw [fold] at h
  obtain ⟨k', hk', heq⟩ := List.mem_map.mp h
  have hk : k' = k := congrArg Prod.fst heq
  subst hk
  have hv : foldValues o (results.filterMap (lookupVal k')) = v :=
    congrArg Prod.snd heq
  refine ⟨hv.symm, ?_⟩
  have hmem : k' ∈ results.flatMap (List.map Prod.fst) :=
    firstDedup_subset _ k' hk'
  obtain ⟨r, hr, hkr⟩ := List.mem_flatMap.mp hmem
  obtain ⟨w, hw⟩ := lookupVal_isSome_of_mem k' r hkr
  intro hemp
  have hwmem : w ∈ results.filterMap (lookupVal k') :=
    List.mem_filterMap.mpr ⟨r, hr, hw⟩
  rw [hemp] at hwmem
  simp at hwmem

/-- Claim C6: folding with no operation keeps only the last iteration's
values; Min and Max take the per-(benchmark, measure) extremum across
iterations; Mean yields the arithmetic mean and Median the middle element
after sorting (mean of the two middle values for even counts), as on the
example value lists; and folding a single-iteration list with any fold
operation returns that iteration unchanged. -/
theorem C6_fold_reducer (results : List BenchmarkResult) :
    (∀ init l, results = init ++ [l] → fold results none = l) ∧
    (∀ k v, (k, v) ∈ fold results (some .min) →
      (∃ r ∈ results, lookupVal k r = some v) ∧
      ∀ r ∈ results, ∀ w, lookupVal k r = some w → v ≤ w) ∧
    (∀ k v, (k, v) ∈ fold results (some .max) →
      (∃ r ∈ results, lookupVal k r = some v) ∧
      ∀ r ∈ results, ∀ w, lookupVal k r = some w → w ≤ v) ∧
    (∀ k v, (k, v) ∈ fold results (some .mean) →
      v = (results.filterMap (lookupVal k)).sum /
        ((results.filterMap (lookupVal k)).length : ℚ)) ∧
    (∀ k v, (k, v) ∈ fold results (some .median) →
      v = listMedian (results.filterMap (lookupVal k))) ∧
    fold [[(("bench", "latency"), 10)], [(("bench", "latency"), 20)],
      [(("bench", "latency"), 30)]] (some .mean) =
      [(("bench", "latency"), 20)] ∧
    fold [[(("bench", "latency"), 10)], [(("bench", "latency"), 20)]]
      (some .median) = [(("bench", "latency"), 15)] ∧
    (∀ op r, (r.map Prod.fst).Nodup → fold [r] (some op) = r) ∧
    (∀ r, fold [r] none = r) := by
  refine ⟨?_, ?_, ?_, ?_, ?_, ?_, ?_, ?_, ?_⟩
  · intro init l hres
    subst hres
    rw [fold, List.getLast?_concat]
    rfl
  · intro k v h
    obtain ⟨hv, hne⟩ := fold_some_mem results .min k v h
    cases hcol : results.filterMap (lookupVal k) with
    | nil => exact absurd hcol hne
    | cons v₀ rest =>
      rw [hcol] at hv
      obtain ⟨hmem, hlb⟩ := foldValues_min_spec v₀ rest
      rw [← hv] at hmem hlb
      constructor
      · obtain ⟨r, hr, hlook⟩ := List.mem_filterMap.mp (hcol ▸ hmem)
        exact ⟨r, hr, hlook⟩
      · intro r hr w hw
        exact hlb w (hcol ▸ List.mem_filterMap.mpr ⟨r, hr, hw⟩)
  · intro k v h
    obtain ⟨hv, hne⟩ := fold_some_mem results .max k v h
    cases hcol : results.filterMap (lookupVal k) with
    | nil => exact absurd hcol hne
    | cons v₀ rest =>
      rw [hcol] at hv
      obtain ⟨hmem, hub⟩ := foldValues_max_spec v₀ rest
      rw [← hv] at hmem hub
      constructor
      · obtain ⟨r, hr, hlook⟩ := List.mem_filterMap.mp (hcol ▸ hmem)
        exact ⟨r, hr, hlook⟩
      · intro r hr w hw
        exact hub w (hcol ▸ List.mem_filterMap.mpr ⟨r, hr, hw⟩)
  · intro k v h
    obtain ⟨hv, -⟩ := fold_some_mem results .mean k v h
    rw [hv]
    rfl
  · intro k v h
    obtain ⟨hv, -⟩ := fold_some_mem results .median k v h
    exact hv
  · norm_num [fold, firstDedup, lookupVal, foldValues, listMean,
      List.flatMap, List.filterMap_cons]
  · norm_num [fold, firstDedup, lookupVal, foldValues, listMedian, sortQ,
      insertSorted, List.flatMap, List.filterMap_cons]
  · intro op r hnd
    rw [fold]
    have h1 : [r].flatMap (List.map Prod.fst) = r.map Prod.fst := by simp
    rw [h1, firstDedup_eq_self _ hnd]
    apply assoc_rebuild r _ ?_ hnd
    intro k v hkv
    have h2 : [r].filterMap (lookupVal k) = [v] := by
      rw [List.filterMap_cons]
      simp [hkv]
    simp only [h2]
    exact foldValues_singleton op v
  · intro r
    rw [fold]
    simp

/-- Witness claim C6: folding two single-entry iterations without an
operation keeps the second, and folding one duplicate-free iteration with
Max returns it unchanged. -/
theorem C6_witness :
    fold [[(("a", "m"), 3)], [(("a", "m"), 1)]] none = [(("a", "m"), 1)] ∧
    fold [[(("a", "m"), 5)]] (some .max) = [(("a", "m"), 5)] := by
  constructor
  · exact (C6_fold_reducer [[(("a", "m"), 3)], [(("a", "m"), 1)]]).1
      [[(("a", "m"), 3)]] [(("a", "m"), 1)] rfl
  · exact (C6_fold_reducer [[(("a", "m"), 5)]]).2.2.2.2.2.2.2.1 .max
      [(("a", "m"), 5)] (by simp)

end Bencher
